import Mathlib

/-!
Verification development for the warehouse-capacity-planner allocation
engine.  The repository ships the engine's TypeScript result-type
declarations (`frontend` types), the README description of the algorithm,
and the frontend callers; the engine implementation itself is a backend
component not present in this source tree, so the engine is modelled here
from the specification (spec.md §3–§4) and checked against the shapes
declared in the repository's type files.
All quantities (areas, heights, weights, PSF, BSF) are modelled as
rationals; item quantities are naturals.
-/

namespace WCP

set_option maxRecDepth 100000

/-- Modelled from the spec: the engine-facing `Item` record (spec §3).
The import collaborator has already derived `area` and `psf` and
normalized the boolean flags, so the engine sees the final shape only. -/
structure Item where
  id : ℕ
  name : String
  category : Option String := none
  quantity : ℕ := 1
  weight : ℚ := 0
  height : ℚ := 0
  area : ℚ := 0
  psf : ℚ := 0
  requires_climate_control : Bool := false
  requires_special_handling : Bool := false
  priority_order : ℤ := 999
  service_branch : Option String := none
  deriving Repr, DecidableEq

/-- Modelled from the spec: the engine-facing `Zone` record (spec §3);
`strength = 0` means the floor-loading limit is unconstrained. -/
structure Zone where
  id : ℕ
  name : String
  area : ℚ
  height : ℚ
  strength : ℚ := 0
  climate_controlled : Bool := false
  special_handling : Bool := false
  deriving Repr, DecidableEq

/-- Output record mirroring the `AllocatedItem` interface declared in the
repository's allocation type file. -/
structure AllocatedItem where
  item_id : ℕ
  name : String
  category : Option String
  quantity : ℕ
  weight : ℚ
  total_weight : ℚ
  area : ℚ
  total_area : ℚ
  height : ℚ
  psf : ℚ
  service_branch : Option String
  requires_climate_control : Bool
  requires_special_handling : Bool
  deriving Repr, DecidableEq

/-- Modelled from the spec: the failure taxonomy of spec §4 step 6
(height > climate > special-handling > PSF > area). -/
inductive FailureReason where
  | height
  | climate
  | special
  | psf
  | area
  deriving Repr, DecidableEq

/-- Output record mirroring the `AllocationFailure` interface declared in
the repository's allocation type file; `failure_reason` is kept as the
enumerated taxonomy rather than display text. -/
structure AllocationFailure where
  item_id : ℕ
  name : String
  category : Option String
  quantity : ℕ
  height : ℚ
  area : ℚ
  required_area : ℚ
  psf : ℚ
  failure_reason : FailureReason
  can_theoretically_fit : Bool
  deriving Repr, DecidableEq

/-- Modelled from the spec: the engine-local working copy of one zone —
the zone's static attributes, the mutable `remaining_area` counter
(initialized to `zone.area`), and the allocation list built up during
the run (spec §3, §9). -/
structure ZoneState where
  zone : Zone
  remaining_area : ℚ
  allocated_items : List AllocatedItem
  deriving Repr, DecidableEq

/-- Modelled from the spec: `required_area = item.area × item.quantity ×
(1 + bsf)` (spec §4 step 1). -/
def requiredArea (bsf : ℚ) (it : Item) : ℚ :=
  it.area * (it.quantity : ℚ) * (1 + bsf)

/-- Modelled from the spec: ceiling-clearance check, `zone.height ≥
item.height` (equality eligible). -/
def heightOK (it : Item) (z : Zone) : Bool :=
  decide (it.height ≤ z.height)

/-- Modelled from the spec: climate check, `!item.requires_climate_control
OR zone.climate_controlled`. -/
def climateOK (it : Item) (z : Zone) : Bool :=
  !it.requires_climate_control || z.climate_controlled

/-- Modelled from the spec: special-handling check,
`!item.requires_special_handling OR zone.special_handling`. -/
def handlingOK (it : Item) (z : Zone) : Bool :=
  !it.requires_special_handling || z.special_handling

/-- Modelled from the spec: floor-strength check, `zone.strength == 0 OR
zone.strength ≥ item.psf`. -/
def strengthOK (it : Item) (z : Zone) : Bool :=
  decide (z.strength = 0) || decide (it.psf ≤ z.strength)

/-- Modelled from the spec: the four static (occupancy-independent)
constraints used for `can_theoretically_fit` (spec §4 step 6). -/
def staticFit (it : Item) (z : Zone) : Bool :=
  heightOK it z && climateOK it z && handlingOK it z && strengthOK it z

/-- Modelled from the spec: zone eligibility for an item — the four static
constraints plus `zone.remaining_area ≥ required_area` (spec §4 step 3). -/
def isEligible (bsf : ℚ) (it : Item) (zs : ZoneState) : Bool :=
  staticFit it zs.zone && decide (requiredArea bsf it ≤ zs.remaining_area)

/-- Modelled from the spec: the priority score — base 0, +1000 when the
item needs climate control and the zone has it, +1000 when the item needs
special handling and the zone supports it, additive (spec §4 step 4). -/
def score (it : Item) (z : Zone) : ℤ :=
  (if it.requires_climate_control && z.climate_controlled then 1000 else 0) +
  (if it.requires_special_handling && z.special_handling then 1000 else 0)

/-- Modelled from the spec: height waste `zone.height − item.height`
(spec §4 step 5b). -/
def heightWaste (it : Item) (z : Zone) : ℚ :=
  z.height - it.height

/-- Modelled from the spec: the strict preference order on candidate
zones — higher score first, then smaller height waste, then larger
`remaining_area` (spec §4 step 5).  `PrefLt it a b` means `a` is strictly
preferred to `b` for item `it`. -/
def PrefLt (it : Item) (a b : ZoneState) : Prop :=
  score it b.zone < score it a.zone ∨
    (score it a.zone = score it b.zone ∧
      (heightWaste it a.zone < heightWaste it b.zone ∨
        (heightWaste it a.zone = heightWaste it b.zone ∧
          b.remaining_area < a.remaining_area)))

instance (it : Item) (a b : ZoneState) : Decidable (PrefLt it a b) := by
  unfold PrefLt
  exact inferInstance

/-- Modelled from the spec: pick the preferred candidate from a list of
(index, zone-state) pairs, keeping the earliest candidate on full ties
(spec §9: stable final tie-break). -/
def pickBest (it : Item) : List (ℕ × ZoneState) → Option (ℕ × ZoneState)
  | [] => none
  | c :: rest =>
    match pickBest it rest with
    | none => some c
    | some b => if PrefLt it b.2 c.2 then some b else some c

/-- Modelled from the spec: the chosen zone for an item — the preferred
element among the eligible zone states, tagged with its index in the
zone-state list (spec §4 steps 3–5). -/
def bestChoice (bsf : ℚ) (it : Item) (zss : List ZoneState) :
    Option (ℕ × ZoneState) :=
  pickBest it (zss.enum.filter fun p => isEligible bsf it p.2)

/-- Modelled from the spec: the output record appended on success —
`total_area` is the committed `required_area`, `total_weight` is
`weight × quantity` (spec §3). -/
def mkAllocated (bsf : ℚ) (it : Item) : AllocatedItem :=
  { item_id := it.id
    name := it.name
    category := it.category
    quantity := it.quantity
    weight := it.weight
    total_weight := it.weight * (it.quantity : ℚ)
    area := it.area
    total_area := requiredArea bsf it
    height := it.height
    psf := it.psf
    service_branch := it.service_branch
    requires_climate_control := it.requires_climate_control
    requires_special_handling := it.requires_special_handling }

/-- Modelled from the spec: the failure-reason precedence chain, checked
against all zones — height > climate > special-handling > PSF > area
(spec §4 step 6). -/
def failureReason (it : Item) (zss : List ZoneState) : FailureReason :=
  if zss.all fun zs => !heightOK it zs.zone then .height
  else if it.requires_climate_control &&
      zss.all fun zs => !zs.zone.climate_controlled then .climate
  else if it.requires_special_handling &&
      zss.all fun zs => !zs.zone.special_handling then .special
  else if zss.all fun zs => !strengthOK it zs.zone then .psf
  else .area

/-- Modelled from the spec: `can_theoretically_fit` — some zone's static
attributes satisfy the item, occupancy ignored (spec §4 step 6). -/
def canTheoreticallyFit (it : Item) (zss : List ZoneState) : Bool :=
  zss.any fun zs => staticFit it zs.zone

/-- Modelled from the spec: the failure record for an item with no
eligible zone (spec §3, §4 step 6). -/
def mkFailure (bsf : ℚ) (it : Item) (zss : List ZoneState) :
    AllocationFailure :=
  { item_id := it.id
    name := it.name
    category := it.category
    quantity := it.quantity
    height := it.height
    area := it.area
    required_area := requiredArea bsf it
    psf := it.psf
    failure_reason := failureReason it zss
    can_theoretically_fit := canTheoreticallyFit it zss }

/-- Replace the element at one position of a list, leaving the rest
unchanged (the engine's in-place zone-counter update). -/
def updateAt (f : α → α) : ℕ → List α → List α
  | _, [] => []
  | 0, x :: xs => f x :: xs
  | n + 1, x :: xs => x :: updateAt f n xs

/-- Modelled from the spec: successful placement — decrement the chosen
zone's `remaining_area` by `required_area` and append the allocated
record (spec §4 step 7). -/
def placeItem (bsf : ℚ) (it : Item) (zs : ZoneState) : ZoneState :=
  { zs with
    remaining_area := zs.remaining_area - requiredArea bsf it
    allocated_items := zs.allocated_items ++ [mkAllocated bsf it] }

/-- Modelled from the spec: the engine's working state — the per-zone
working copies plus the failure list accumulated so far. -/
structure EngineState where
  zoneStates : List ZoneState
  failures : List AllocationFailure
  deriving Repr, DecidableEq

/-- Modelled from the spec: process one item — allocate to the chosen
zone on success, otherwise record one failure (spec §4 steps 6–7). -/
def stepItem (bsf : ℚ) (st : EngineState) (it : Item) : EngineState :=
  match bestChoice bsf it st.zoneStates with
  | some (i, _) =>
    { st with zoneStates := updateAt (placeItem bsf it) i st.zoneStates }
  | none =>
    { st with failures := st.failures ++ [mkFailure bsf it st.zoneStates] }

/-- Modelled from the spec: initial engine state — each zone's
`remaining_area` starts at `zone.area`, nothing allocated, no failures
(spec §3). -/
def initState (zones : List Zone) : EngineState :=
  { zoneStates :=
      zones.map fun z => { zone := z, remaining_area := z.area, allocated_items := [] }
    failures := [] }

/-- Modelled from the spec: the sort order on items — primary key height
descending, secondary key `priority_order` ascending (spec §4
preprocessing step 2). -/
def itemLE (a b : Item) : Prop :=
  b.height < a.height ∨ (a.height = b.height ∧ a.priority_order ≤ b.priority_order)

instance (a b : Item) : Decidable (itemLE a b) := by
  unfold itemLE
  exact inferInstance

instance : IsTotal Item itemLE where
  total a b := by
    unfold itemLE
    rcases lt_trichotomy a.height b.height with h | h | h
    · exact Or.inr (Or.inl h)
    · rcases le_total a.priority_order b.priority_order with hp | hp
      · exact Or.inl (Or.inr ⟨h, hp⟩)
      · exact Or.inr (Or.inr ⟨h.symm, hp⟩)
    · exact Or.inl (Or.inl h)

instance : IsTrans Item itemLE where
  trans a b c hab hbc := by
    unfold itemLE at *
    rcases hab with h1 | ⟨h1, p1⟩
    · rcases hbc with h2 | ⟨h2, p2⟩
      · exact Or.inl (h2.trans h1)
      · exact Or.inl (h2 ▸ h1)
    · rcases hbc with h2 | ⟨h2, p2⟩
      · exact Or.inl (h1 ▸ h2)
      · exact Or.inr ⟨h1.trans h2, p1.trans p2⟩

/-- Modelled from the spec: sort tallest-first, ties by `priority_order`
ascending; a stable sort, preserving input order on full ties (spec §4
preprocessing, spec §9). -/
def sortItems (items : List Item) : List Item :=
  List.insertionSort itemLE items

/-- Modelled from the spec: fold the per-item step over a prepared item
list (spec §2 data flow). -/
def runItems (bsf : ℚ) (st : EngineState) (l : List Item) : EngineState :=
  l.foldl (stepItem bsf) st

/-- Modelled from the spec: one full engine pass — sort, then place each
item in order (spec §4). -/
def runEngine (bsf : ℚ) (items : List Item) (zones : List Zone) : EngineState :=
  runItems bsf (initState zones) (sortItems items)

/-- Output record mirroring the `ZoneStat` interface declared in the
repository's allocation type file, restricted to the fields whose
construction the spec defines. -/
structure ZoneStat where
  zone_name : String
  zone_id : ℕ
  total_items : ℕ
  area_utilization : ℚ
  total_weight : ℚ
  deriving Repr, DecidableEq

/-- Output record mirroring the `ZoneAllocation` interface declared in the
repository's allocation type file, restricted to the fields whose
construction the spec defines (the constrained-candidate counters have no
specified formula and are omitted). -/
structure ZoneAllocation where
  zone_info : Zone
  remaining_area : ℚ
  allocated_items : List AllocatedItem
  area_utilization : ℚ
  total_items : ℕ
  total_weight : ℚ
  deriving Repr, DecidableEq

/-- Output record mirroring the `AllocationSummary` interface declared in
the repository's allocation type file. -/
structure AllocationSummary where
  total_items : ℕ
  total_allocated : ℕ
  total_failed : ℕ
  allocation_rate : ℚ
  overall_utilization : ℚ
  total_warehouse_area : ℚ
  total_used_area : ℚ
  bsf_factor : ℚ
  zone_stats : List ZoneStat
  deriving Repr, DecidableEq

/-- Output record mirroring the `allocation_data` payload of the
`AllocationResult` interface declared in the repository's allocation type
file. -/
structure AllocationData where
  zone_allocations : List ZoneAllocation
  failures : List AllocationFailure
  overall_fit : Bool
  summary : AllocationSummary
  deriving Repr, DecidableEq

/-- Output record mirroring the engine-relevant fields of the
`AllocationResult` interface declared in the repository's allocation type
file (the persistence fields id/upload_id/warehouse_id/result_name/
created_at belong to the excluded API layer). -/
structure AllocationResult where
  bsf_factor : ℚ
  total_allocated : ℕ
  total_failed : ℕ
  overall_fit : Bool
  allocation_data : AllocationData
  deriving Repr, DecidableEq

/-- Modelled from the spec: per-zone utilization
`(area − remaining_area) / area × 100` (spec §4 postprocessing). -/
def zoneUtilization (zs : ZoneState) : ℚ :=
  (zs.zone.area - zs.remaining_area) / zs.zone.area * 100

/-- Sum of the `total_area` fields of a list of allocated records. -/
def sumTotalArea (l : List AllocatedItem) : ℚ :=
  (l.map AllocatedItem.total_area).sum

/-- Sum of the `total_weight` fields of a list of allocated records. -/
def sumTotalWeight (l : List AllocatedItem) : ℚ :=
  (l.map AllocatedItem.total_weight).sum

/-- Modelled from the spec: the published per-zone result block (spec §3,
§4 postprocessing). -/
def mkZoneAllocation (zs : ZoneState) : ZoneAllocation :=
  { zone_info := zs.zone
    remaining_area := zs.remaining_area
    allocated_items := zs.allocated_items
    area_utilization := zoneUtilization zs
    total_items := zs.allocated_items.length
    total_weight := sumTotalWeight zs.allocated_items }

/-- Modelled from the spec: the per-zone statistics row of the summary. -/
def mkZoneStat (zs : ZoneState) : ZoneStat :=
  { zone_name := zs.zone.name
    zone_id := zs.zone.id
    total_items := zs.allocated_items.length
    area_utilization := zoneUtilization zs
    total_weight := sumTotalWeight zs.allocated_items }

/-- Number of allocated records across all zone states. -/
def allocatedCount (st : EngineState) : ℕ :=
  (st.zoneStates.map fun zs => zs.allocated_items.length).sum

/-- Total area committed across all zone states. -/
def usedArea (st : EngineState) : ℚ :=
  (st.zoneStates.map fun zs => sumTotalArea zs.allocated_items).sum

/-- Total configured area across all zone states. -/
def warehouseArea (st : EngineState) : ℚ :=
  (st.zoneStates.map fun zs => zs.zone.area).sum

/-- Modelled from the spec: the summary block — counts,
`allocation_rate = allocated / total × 100` (100 by convention on an
empty item list), `overall_utilization = Σ allocated_area / Σ zone_area
× 100` (spec §4 postprocessing, §8 boundary behaviors). -/
def mkSummary (bsf : ℚ) (items : List Item) (st : EngineState) :
    AllocationSummary :=
  { total_items := items.length
    total_allocated := allocatedCount st
    total_failed := st.failures.length
    allocation_rate :=
      if items.length = 0 then 100
      else (allocatedCount st : ℚ) / (items.length : ℚ) * 100
    overall_utilization := usedArea st / warehouseArea st * 100
    total_warehouse_area := warehouseArea st
    total_used_area := usedArea st
    bsf_factor := bsf
    zone_stats := st.zoneStates.map mkZoneStat }

/-- Modelled from the spec: assemble the result object; `overall_fit` is
true iff the failure list is empty, and the top-level roll-up counters
repeat the summary's counters as in the repository's declared result
shape (spec §4 postprocessing). -/
def mkResult (bsf : ℚ) (items : List Item) (st : EngineState) :
    AllocationResult :=
  { bsf_factor := bsf
    total_allocated := allocatedCount st
    total_failed := st.failures.length
    overall_fit := st.failures.isEmpty
    allocation_data :=
      { zone_allocations := st.zoneStates.map mkZoneAllocation
        failures := st.failures
        overall_fit := st.failures.isEmpty
        summary := mkSummary bsf items st } }

/-- Modelled from the spec: defensive item validation — a missing `name`
or a negative numeric field is malformed input (spec §4 error
conditions, §7). -/
def validItem (it : Item) : Bool :=
  decide (it.name ≠ "") && decide (0 ≤ it.weight) && decide (0 ≤ it.height) &&
    decide (0 ≤ it.area) && decide (0 ≤ it.psf) && decide (1 ≤ it.quantity)

/-- Modelled from the spec: defensive zone validation — a missing `name`
or a negative numeric field is malformed input (spec §4 error
conditions, §7). -/
def validZone (z : Zone) : Bool :=
  decide (z.name ≠ "") && decide (0 ≤ z.area) && decide (0 ≤ z.height) &&
    decide (0 ≤ z.strength)

/-- Modelled from the spec: whole-input validation; the engine's sane
range for `bsf` is non-negativity only — the `[0, 1]` band is validated
by the caller, not the engine (spec §3 invariants, §4 error
conditions). -/
def validInput (bsf : ℚ) (items : List Item) (zones : List Zone) : Bool :=
  items.all validItem && zones.all validZone && decide (0 ≤ bsf)

/-- Modelled from the spec: the engine entry point — an error result on
malformed input, otherwise the full allocation result; infeasibility is
never an error (spec §4, §7). -/
def allocate (bsf : ℚ) (items : List Item) (zones : List Zone) :
    Except Unit AllocationResult :=
  if validInput bsf items zones then
    Except.ok (mkResult bsf items (runEngine bsf items zones))
  else
    Except.error ()

/-- Full equality of the three tie-break keys of two zone states. -/
def KeyEquiv (it : Item) (a b : ZoneState) : Prop :=
  score it a.zone = score it b.zone ∧
    heightWaste it a.zone = heightWaste it b.zone ∧
    a.remaining_area = b.remaining_area

/-- Spec invariant for one zone state: nonnegative remaining area, and
exact accounting `remaining_area + committed area = zone.area`. -/
def ZoneInv (zs : ZoneState) : Prop :=
  0 ≤ zs.remaining_area ∧
    zs.remaining_area + sumTotalArea zs.allocated_items = zs.zone.area

/-- Number of records carrying a given item id in a published result
(allocation lists of all zones plus the failure list). -/
def resultCount (r : AllocationResult) (n : ℕ) : ℕ :=
  (r.allocation_data.zone_allocations.map
      fun za => za.allocated_items.countP fun a => a.item_id == n).sum
    + r.allocation_data.failures.countP fun f => f.item_id == n

/-- Number of records carrying a given item id in the whole engine state
(allocation lists of all zones plus the failure list). -/
def stCount (st : EngineState) (n : ℕ) : ℕ :=
  (st.zoneStates.map fun zs => zs.allocated_items.countP fun a => a.item_id == n).sum
    + st.failures.countP fun f => f.item_id == n

/-- Number of allocated records carrying a given item id across the
zones only. -/
def zoneCount (st : EngineState) (n : ℕ) : ℕ :=
  (st.zoneStates.map fun zs => zs.allocated_items.countP fun a => a.item_id == n).sum

/-- BSF gate of `handleRunAllocation` in
`src/frontend/src/pages/AllocationPlanner.tsx` (and `handleUpload` in the
upload page): the caller refuses to submit unless the parsed value is a
number within `[0, 1]`; `none` models a value `parseFloat` rejected. -/
def frontendBsfAccepted (b : Option ℚ) : Bool :=
  match b with
  | none => false
  | some v => !(decide (v < 0) || decide (1 < v))

/-- Concrete sample zone used to evaluate theorems on closed inputs. -/
def wZone1 : Zone :=
  { id := 1, name := "Z1", area := 1000, height := 10 }

/-- Second concrete sample zone (taller, smaller, climate-controlled). -/
def wZone2 : Zone :=
  { id := 2, name := "Z2", area := 600, height := 20, climate_controlled := true }

/-- Concrete sample item fitting `wZone1`. -/
def wItem1 : Item :=
  { id := 7, name := "crate", quantity := 1, weight := 10, height := 8, area := 100 }

/-- Second concrete sample item (shorter, smaller). -/
def wItem2 : Item :=
  { id := 8, name := "box", quantity := 2, weight := 5, height := 5, area := 50 }

/-- Concrete zone state over `wZone1` with full capacity. -/
def wState1 : ZoneState :=
  { zone := wZone1, remaining_area := 1000, allocated_items := [] }

/-- Concrete zone state over `wZone2` with full capacity. -/
def wState2 : ZoneState :=
  { zone := wZone2, remaining_area := 600, allocated_items := [] }

theorem updateAt_length (f : α → α) :
    ∀ (i : ℕ) (l : List α), (updateAt f i l).length = l.length := by
  intro i l
  induction l generalizing i with
  | nil => cases i <;> rfl
  | cons x xs ih =>
    cases i with
    | zero => rfl
    | succ n => simpa [updateAt] using ih n

theorem updateAt_get_self (f : α → α) :
    ∀ (l : List α) (i : ℕ) (h : i < l.length) (h2 : i < (updateAt f i l).length),
      (updateAt f i l).get ⟨i, h2⟩ = f (l.get ⟨i, h⟩) := by
  intro l
  induction l with
  | nil => intro i h; simp at h
  | cons x xs ih =>
    intro i h h2
    cases i with
    | zero => rfl
    | succ n => exact ih n (by simpa using h) (by simpa [updateAt] using h2)

theorem updateAt_get_ne (f : α → α) :
    ∀ (l : List α) (i j : ℕ), j ≠ i →
      ∀ (h : j < l.length) (h2 : j < (updateAt f i l).length),
      (updateAt f i l).get ⟨j, h2⟩ = l.get ⟨j, h⟩ := by
  intro l
  induction l with
  | nil => intro i j _ h; simp at h
  | cons x xs ih =>
    intro i j hne h h2
    cases i with
    | zero =>
      cases j with
      | zero => exact absurd rfl hne
      | succ m => rfl
    | succ n =>
      cases j with
      | zero => rfl
      | succ m =>
        exact ih n m (fun hc => hne (by simp [hc]))
          (by simpa using h) (by simpa [updateAt] using h2)

theorem mem_updateAt (f : α → α) :
    ∀ (l : List α) (i : ℕ) (y : α), y ∈ updateAt f i l →
      y ∈ l ∨ ∃ h : i < l.length, y = f (l.get ⟨i, h⟩) := by
  intro l
  induction l with
  | nil => intro i y hy; cases i <;> simp [updateAt] at hy
  | cons x xs ih =>
    intro i y hy
    cases i with
    | zero =>
      rcases List.mem_cons.mp hy with h | h
      · exact Or.inr ⟨by simp, h⟩
      · exact Or.inl (List.mem_cons_of_mem _ h)
    | succ n =>
      rcases List.mem_cons.mp hy with h | h
      · exact Or.inl (h ▸ List.mem_cons_self _ _)
      · rcases ih n y h with h1 | ⟨hlt, hEq⟩
        · exact Or.inl (List.mem_cons_of_mem _ h1)
        · exact Or.inr ⟨by simpa using Nat.succ_lt_succ hlt, hEq⟩

theorem sum_map_updateAt (f : α → α) (g : α → ℕ) (c : ℕ)
    (hf : ∀ x, g (f x) = g x + c) :
    ∀ (i : ℕ) (l : List α), i < l.length →
      ((updateAt f i l).map g).sum = (l.map g).sum + c := by
  intro i l
  induction l generalizing i with
  | nil => intro h; simp at h
  | cons x xs ih =>
    intro h
    cases i with
    | zero => simp [updateAt, hf x]; omega
    | succ n =>
      have := ih n (by simpa using h)
      simp [updateAt, this]
      omega

theorem prefLt_irrefl (it : Item) (a : ZoneState) : ¬ PrefLt it a a := by
  unfold PrefLt
  rintro (h | ⟨-, h | ⟨-, h⟩⟩) <;> exact lt_irrefl _ h

theorem prefLt_asymm {it : Item} {a b : ZoneState} :
    PrefLt it a b → ¬ PrefLt it b a := by
  unfold PrefLt
  rintro (h1 | ⟨h1, h2 | ⟨h2, h3⟩⟩) (g1 | ⟨g1, g2 | ⟨g2, g3⟩⟩) <;> linarith

theorem prefLt_trans {it : Item} {a b c : ZoneState} :
    PrefLt it a b → PrefLt it b c → PrefLt it a c := by
  unfold PrefLt
  rintro (h1 | ⟨h1, h2 | ⟨h2, h3⟩⟩) (g1 | ⟨g1, g2 | ⟨g2, g3⟩⟩)
  · exact Or.inl (by linarith)
  · exact Or.inl (by linarith)
  · exact Or.inl (by linarith)
  · exact Or.inl (by linarith)
  · exact Or.inr ⟨by linarith, Or.inl (by linarith)⟩
  · exact Or.inr ⟨by linarith, Or.inl (by linarith)⟩
  · exact Or.inl (by linarith)
  · exact Or.inr ⟨by linarith, Or.inl (by linarith)⟩
  · exact Or.inr ⟨by linarith, Or.inr ⟨by linarith, by linarith⟩⟩

theorem keyEquiv_symm {it : Item} {a b : ZoneState} :
    KeyEquiv it a b → KeyEquiv it b a := by
  rintro ⟨e1, e2, e3⟩
  exact ⟨e1.symm, e2.symm, e3.symm⟩

theorem prefLt_total (it : Item) (a b : ZoneState) :
    PrefLt it a b ∨ PrefLt it b a ∨ KeyEquiv it a b := by
  unfold PrefLt KeyEquiv
  rcases lt_trichotomy (score it a.zone) (score it b.zone) with h | h | h
  · exact Or.inr (Or.inl (Or.inl h))
  · rcases lt_trichotomy (heightWaste it a.zone) (heightWaste it b.zone) with w | w | w
    · exact Or.inl (Or.inr ⟨h, Or.inl w⟩)
    · rcases lt_trichotomy a.remaining_area b.remaining_area with r | r | r
      · exact Or.inr (Or.inl (Or.inr ⟨h.symm, Or.inr ⟨w.symm, r⟩⟩))
      · exact Or.inr (Or.inr ⟨h, w, r⟩)
      · exact Or.inl (Or.inr ⟨h, Or.inr ⟨w, r⟩⟩)
    · exact Or.inr (Or.inl (Or.inr ⟨h.symm, Or.inl w⟩))
  · exact Or.inl (Or.inl h)

theorem prefLt_congr_right {it : Item} {b c m : ZoneState} :
    KeyEquiv it c b → PrefLt it m c → PrefLt it m b := by
  unfold KeyEquiv PrefLt
  rintro ⟨e1, e2, e3⟩ (h | ⟨h1, h2 | ⟨h2, h3⟩⟩)
  · exact Or.inl (by linarith)
  · exact Or.inr ⟨by linarith, Or.inl (by linarith)⟩
  · exact Or.inr ⟨by linarith, Or.inr ⟨by linarith, by linarith⟩⟩

theorem not_prefLt_trans {it : Item} {a b c : ZoneState} :
    ¬ PrefLt it a b → ¬ PrefLt it b c → ¬ PrefLt it a c := by
  intro hab hbc hac
  rcases prefLt_total it b c with h | h | h
  · exact hbc h
  · exact hab (prefLt_trans hac h)
  · exact hab (prefLt_congr_right (keyEquiv_symm h) hac)

theorem pickBest_eq_none_iff (it : Item) :
    ∀ l : List (ℕ × ZoneState), pickBest it l = none ↔ l = [] := by
  intro l
  cases l with
  | nil => simp [pickBest]
  | cons c rest =>
    simp only [pickBest]
    constructor
    · intro h
      cases hr : pickBest it rest <;> simp [hr] at h
      split at h <;> simp_all
    · intro h
      simp at h

theorem pickBest_mem (it : Item) :
    ∀ (l : List (ℕ × ZoneState)) (c), pickBest it l = some c → c ∈ l := by
  intro l
  induction l with
  | nil => intro c h; simp [pickBest] at h
  | cons x rest ih =>
    intro c h
    simp only [pickBest] at h
    cases hr : pickBest it rest with
    | none => rw [hr] at h; simp at h; exact h ▸ List.mem_cons_self _ _
    | some b =>
      rw [hr] at h
      simp only at h
      split at h
      · exact List.mem_cons_of_mem _ (ih c (hr.trans (by simp_all)))
      · simp at h; exact h ▸ List.mem_cons_self _ _

theorem pickBest_maximal (it : Item) :
    ∀ (l : List (ℕ × ZoneState)) (c), pickBest it l = some c →
      ∀ d ∈ l, ¬ PrefLt it d.2 c.2 := by
  intro l
  induction l with
  | nil => intro c h; simp [pickBest] at h
  | cons x rest ih =>
    intro c h d hd
    simp only [pickBest] at h
    cases hr : pickBest it rest with
    | none =>
      rw [hr] at h
      simp at h
      have hrest : rest = [] := (pickBest_eq_none_iff it rest).mp hr
      subst hrest
      rcases List.mem_cons.mp hd with h1 | h1
      · subst h1; rw [← h]; exact prefLt_irrefl it d.2
      · simp at h1
    | some b =>
      rw [hr] at h
      simp only at h
      split at h
      · rename_i hpb
        simp at h
        subst h
        rcases List.mem_cons.mp hd with h1 | h1
        · subst h1; exact prefLt_asymm hpb
        · exact ih b hr d h1
      · rename_i hpb
        simp at h
        subst h
        rcases List.mem_cons.mp hd with h1 | h1
        · subst h1; exact prefLt_irrefl it d.2
        · exact not_prefLt_trans (ih b hr d h1) hpb

theorem mem_enum_pair {zs : ZoneState} {zss : List ZoneState} (h : zs ∈ zss) :
    ∃ i, (i, zs) ∈ zss.enum := by
  rcases List.mem_iff_getElem.mp h with ⟨i, hlt, hEq⟩
  exact ⟨i, List.mem_enum_iff_getElem?.mpr (by simp [hlt, hEq])⟩

theorem enum_pair_getElem {p : ℕ × ZoneState} {zss : List ZoneState}
    (h : p ∈ zss.enum) :
    ∃ hlt : p.1 < zss.length, zss.get ⟨p.1, hlt⟩ = p.2 := by
  have := List.mem_enum_iff_getElem?.mp h
  rcases List.getElem?_eq_some_iff.mp this with ⟨hlt, hEq⟩
  exact ⟨hlt, hEq⟩

theorem bestChoice_eq_none_iff (bsf : ℚ) (it : Item) (zss : List ZoneState) :
    bestChoice bsf it zss = none ↔ ∀ zs ∈ zss, isEligible bsf it zs = false := by
  unfold bestChoice
  rw [pickBest_eq_none_iff, List.filter_eq_nil_iff]
  constructor
  · intro h zs hzs
    rcases mem_enum_pair hzs with ⟨i, hi⟩
    have := h (i, zs) hi
    simpa using this
  · intro h p hp
    rcases enum_pair_getElem hp with ⟨hlt, hEq⟩
    have := h p.2 (hEq ▸ List.get_mem zss p.1 hlt)
    simp [this]

theorem bestChoice_some_spec {bsf : ℚ} {it : Item} {zss : List ZoneState}
    {i : ℕ} {zs : ZoneState} (h : bestChoice bsf it zss = some (i, zs)) :
    (∃ hlt : i < zss.length, zss.get ⟨i, hlt⟩ = zs) ∧
      isEligible bsf it zs = true ∧
      ∀ z ∈ zss, isEligible bsf it z = true → ¬ PrefLt it z zs := by
  unfold bestChoice at h
  have hmem := pickBest_mem it _ _ h
  have hfil := List.mem_filter.mp hmem
  have hget := enum_pair_getElem hfil.1
  refine ⟨hget, by simpa using hfil.2, ?_⟩
  intro z hz he
  rcases mem_enum_pair hz with ⟨j, hj⟩
  have hjf : (j, z) ∈ zss.enum.filter fun p => isEligible bsf it p.2 :=
    List.mem_filter.mpr ⟨hj, by simpa using he⟩
  exact pickBest_maximal it _ _ h (j, z) hjf

theorem stepItem_count (bsf : ℚ) (st : EngineState) (it : Item) (n : ℕ) :
    stCount (stepItem bsf st it) n = stCount st n + (if it.id = n then 1 else 0) := by
  unfold stepItem
  cases hbc : bestChoice bsf it st.zoneStates with
  | none =>
    simp [stCount, List.countP_append, List.countP_cons, mkFailure, beq_iff_eq]
    all_goals omega
  | some p =>
    obtain ⟨i, z0⟩ := p
    obtain ⟨⟨hlt, hget⟩, helig, -⟩ := bestChoice_some_spec hbc
    simp only [stCount]
    have hsum := sum_map_updateAt (placeItem bsf it)
      (fun zs => zs.allocated_items.countP fun a => a.item_id == n)
      (if it.id = n then 1 else 0)
      (fun x => by
        simp [placeItem, List.countP_append, List.countP_cons, mkAllocated, beq_iff_eq])
      i st.zoneStates hlt
    simp only [hsum]
    omega

theorem stepItem_total (bsf : ℚ) (st : EngineState) (it : Item) :
    allocatedCount (stepItem bsf st it) + (stepItem bsf st it).failures.length
      = allocatedCount st + st.failures.length + 1 := by
  unfold stepItem
  cases hbc : bestChoice bsf it st.zoneStates with
  | none =>
    simp [allocatedCount]
    all_goals omega
  | some p =>
    obtain ⟨i, z0⟩ := p
    obtain ⟨⟨hlt, hget⟩, helig, -⟩ := bestChoice_some_spec hbc
    simp only [allocatedCount]
    have hsum := sum_map_updateAt (placeItem bsf it)
      (fun zs => zs.allocated_items.length) 1
      (fun x => by simp [placeItem]) i st.zoneStates hlt
    simp only [hsum]
    omega

theorem stepItem_length (bsf : ℚ) (st : EngineState) (it : Item) :
    (stepItem bsf st it).zoneStates.length = st.zoneStates.length := by
  unfold stepItem
  cases hbc : bestChoice bsf it st.zoneStates with
  | none => rfl
  | some p =>
    obtain ⟨i, z0⟩ := p
    simp [updateAt_length]

theorem stepItem_get_zone (bsf : ℚ) (st : EngineState) (it : Item) (j : ℕ)
    (h : j < st.zoneStates.length) (h2 : j < (stepItem bsf st it).zoneStates.length) :
    ((stepItem bsf st it).zoneStates.get ⟨j, h2⟩).zone
      = (st.zoneStates.get ⟨j, h⟩).zone := by
  revert h2
  unfold stepItem
  cases hbc : bestChoice bsf it st.zoneStates with
  | none => intro h2; rfl
  | some p =>
    obtain ⟨i, z0⟩ := p
    intro h2
    by_cases hij : j = i
    · subst hij
      have := updateAt_get_self (placeItem bsf it) st.zoneStates j h (by simpa using h2)
      simp only at this ⊢
      rw [this]
      rfl
    · have := updateAt_get_ne (placeItem bsf it) st.zoneStates i j hij h (by simpa using h2)
      simp only at this ⊢
      rw [this]

theorem stepItem_get_remaining_le (bsf : ℚ) (st : EngineState) (it : Item)
    (hreq : 0 ≤ requiredArea bsf it) (j : ℕ)
    (h : j < st.zoneStates.length) (h2 : j < (stepItem bsf st it).zoneStates.length) :
    ((stepItem bsf st it).zoneStates.get ⟨j, h2⟩).remaining_area
      ≤ (st.zoneStates.get ⟨j, h⟩).remaining_area := by
  revert h2
  unfold stepItem
  cases hbc : bestChoice bsf it st.zoneStates with
  | none => intro h2; exact le_refl _
  | some p =>
    obtain ⟨i, z0⟩ := p
    intro h2
    by_cases hij : j = i
    · subst hij
      have := updateAt_get_self (placeItem bsf it) st.zoneStates j h (by simpa using h2)
      simp only at this ⊢
      rw [this]
      simp only [placeItem]
      linarith
    · have := updateAt_get_ne (placeItem bsf it) st.zoneStates i j hij h (by simpa using h2)
      simp only at this ⊢
      rw [this]

theorem req_le_of_eligible {bsf : ℚ} {it : Item} {zs : ZoneState}
    (h : isEligible bsf it zs = true) :
    requiredArea bsf it ≤ zs.remaining_area := by
  unfold isEligible at h
  have := (Bool.and_eq_true _ _).mp h
  exact of_decide_eq_true this.2

theorem stepItem_inv (bsf : ℚ) (st : EngineState) (it : Item)
    (h : ∀ zs ∈ st.zoneStates, ZoneInv zs) :
    ∀ zs ∈ (stepItem bsf st it).zoneStates, ZoneInv zs := by
  intro zs hzs
  unfold stepItem at hzs
  cases hbc : bestChoice bsf it st.zoneStates with
  | none => rw [hbc] at hzs; exact h zs hzs
  | some p =>
    obtain ⟨i, z0⟩ := p
    rw [hbc] at hzs
    simp only at hzs
    rcases mem_updateAt _ _ _ _ hzs with hm | ⟨hlt, hEq⟩
    · exact h zs hm
    · obtain ⟨⟨hlt2, hget⟩, helig, -⟩ := bestChoice_some_spec hbc
      have hgz : st.zoneStates.get ⟨i, hlt⟩ = z0 := hget
      rw [hgz] at hEq
      subst hEq
      have hz0 := h z0 (hgz ▸ List.get_mem st.zoneStates i hlt)
      have hle := req_le_of_eligible helig
      refine ⟨?_, ?_⟩
      · simp only [placeItem]
        linarith [hz0.1]
      · have hz0b := hz0.2
        simp only [sumTotalArea] at hz0b ⊢
        simp only [placeItem, List.map_append, List.sum_append, mkAllocated,
          List.map_cons, List.map_nil, List.sum_cons, List.sum_nil]
        linarith

theorem runItems_cons (bsf : ℚ) (st : EngineState) (it : Item) (l : List Item) :
    runItems bsf st (it :: l) = runItems bsf (stepItem bsf st it) l := rfl

theorem runItems_count (bsf : ℚ) (n : ℕ) (l : List Item) :
    ∀ st : EngineState,
      stCount (runItems bsf st l) n = stCount st n + l.countP fun x => x.id == n := by
  induction l with
  | nil => intro st; simp [runItems]
  | cons it l ih =>
    intro st
    rw [runItems_cons, ih, stepItem_count]
    simp only [List.countP_cons, beq_iff_eq]
    by_cases hc : it.id = n <;> simp [hc] <;> omega

theorem runItems_total (bsf : ℚ) (l : List Item) :
    ∀ st : EngineState,
      allocatedCount (runItems bsf st l) + (runItems bsf st l).failures.length
        = allocatedCount st + st.failures.length + l.length := by
  induction l with
  | nil => intro st; simp [runItems]
  | cons it l ih =>
    intro st
    rw [runItems_cons, ih, stepItem_total]
    simp
    omega

theorem runItems_length (bsf : ℚ) (l : List Item) :
    ∀ st : EngineState,
      (runItems bsf st l).zoneStates.length = st.zoneStates.length := by
  induction l with
  | nil => intro st; rfl
  | cons it l ih =>
    intro st
    rw [runItems_cons, ih, stepItem_length]

theorem runItems_inv (bsf : ℚ) (l : List Item) :
    ∀ st : EngineState,
      (∀ zs ∈ st.zoneStates, ZoneInv zs) →
      ∀ zs ∈ (runItems bsf st l).zoneStates, ZoneInv zs := by
  induction l with
  | nil => intro st h; exact h
  | cons it l ih =>
    intro st h
    rw [runItems_cons]
    exact ih (stepItem bsf st it) (stepItem_inv bsf st it h)

theorem runItems_get_zone (bsf : ℚ) (l : List Item) :
    ∀ (st : EngineState) (j : ℕ)
      (h : j < st.zoneStates.length) (h2 : j < (runItems bsf st l).zoneStates.length),
      ((runItems bsf st l).zoneStates.get ⟨j, h2⟩).zone
        = (st.zoneStates.get ⟨j, h⟩).zone := by
  induction l with
  | nil => intro st j h h2; rfl
  | cons it l ih =>
    intro st j h h2
    have hmid : j < (stepItem bsf st it).zoneStates.length := by
      rw [stepItem_length]; exact h
    exact (ih (stepItem bsf st it) j hmid h2).trans
      (stepItem_get_zone bsf st it j h hmid)

theorem runItems_get_remaining_le (bsf : ℚ) (l : List Item)
    (hreq : ∀ it ∈ l, 0 ≤ requiredArea bsf it) :
    ∀ (st : EngineState) (j : ℕ)
      (h : j < st.zoneStates.length) (h2 : j < (runItems bsf st l).zoneStates.length),
      ((runItems bsf st l).zoneStates.get ⟨j, h2⟩).remaining_area
        ≤ (st.zoneStates.get ⟨j, h⟩).remaining_area := by
  induction l with
  | nil => intro st j h h2; exact le_refl _
  | cons it l ih =>
    intro st j h h2
    have hmid : j < (stepItem bsf st it).zoneStates.length := by
      rw [stepItem_length]; exact h
    have h1 := ih (fun x hx => hreq x (List.mem_cons_of_mem _ hx))
      (stepItem bsf st it) j hmid h2
    have h3 := stepItem_get_remaining_le bsf st it
      (hreq it (List.mem_cons_self _ _)) j h hmid
    exact le_trans h1 h3

theorem stepItem_no_zones (bsf : ℚ) (st : EngineState) (it : Item)
    (h : st.zoneStates = []) :
    stepItem bsf st it
      = { st with failures := st.failures ++ [mkFailure bsf it []] } := by
  have hbc : bestChoice bsf it st.zoneStates = none := by
    rw [h]; rfl
  unfold stepItem
  rw [hbc, h]

theorem runItems_no_zones (bsf : ℚ) (l : List Item) :
    ∀ st : EngineState, st.zoneStates = [] →
      (runItems bsf st l).zoneStates = [] ∧
      (runItems bsf st l).failures
        = st.failures ++ l.map fun it => mkFailure bsf it [] := by
  induction l with
  | nil => intro st h; exact ⟨h, by simp [runItems]⟩
  | cons it l ih =>
    intro st h
    rw [runItems_cons, stepItem_no_zones bsf st it h]
    rcases ih { st with failures := st.failures ++ [mkFailure bsf it []] } h with ⟨h1, h2⟩
    refine ⟨h1, ?_⟩
    rw [h2]
    simp

theorem runItems_append (bsf : ℚ) (st : EngineState) (l1 l2 : List Item) :
    runItems bsf st (l1 ++ l2) = runItems bsf (runItems bsf st l1) l2 :=
  List.foldl_append _ _ _ _

theorem stCount_initState (zones : List Zone) (n : ℕ) :
    stCount (initState zones) n = 0 := by
  simp [stCount, initState, List.map_map, Function.comp_def]

theorem allocatedCount_initState (zones : List Zone) :
    allocatedCount (initState zones) = 0 := by
  simp [allocatedCount, initState, List.map_map, Function.comp_def]

theorem sortItems_perm (items : List Item) : (sortItems items).Perm items :=
  List.perm_insertionSort itemLE items

theorem stCount_runEngine (bsf : ℚ) (items : List Item) (zones : List Zone)
    (n : ℕ) :
    stCount (runEngine bsf items zones) n = items.countP fun x => x.id == n := by
  unfold runEngine
  rw [runItems_count, stCount_initState]
  simpa using (sortItems_perm items).countP_eq fun x => x.id == n

theorem countP_id_eq_one {items : List Item} {it : Item}
    (hnd : (items.map Item.id).Nodup) (hit : it ∈ items) :
    (items.countP fun x => x.id == it.id) = 1 := by
  have h1 : (items.map Item.id).count it.id = 1 :=
    List.count_eq_one_of_mem hnd (List.mem_map_of_mem _ hit)
  rw [List.count_eq_countP, List.countP_map] at h1
  simpa [Function.comp_def] using h1

theorem resultCount_mkResult (bsf : ℚ) (items : List Item) (st : EngineState)
    (n : ℕ) : resultCount (mkResult bsf items st) n = stCount st n := by
  simp [resultCount, mkResult, stCount, List.map_map, Function.comp_def,
    mkZoneAllocation]

theorem requiredArea_nonneg {bsf : ℚ} {it : Item} (hb : 0 ≤ bsf)
    (ha : 0 ≤ it.area) : 0 ≤ requiredArea bsf it := by
  unfold requiredArea
  have hq : (0:ℚ) ≤ (it.quantity : ℚ) := Nat.cast_nonneg _
  have h1 : (0:ℚ) ≤ 1 + bsf := by linarith
  exact mul_nonneg (mul_nonneg ha hq) h1

theorem allocate_ok_iff (bsf : ℚ) (items : List Item) (zones : List Zone)
    (r : AllocationResult) :
    allocate bsf items zones = Except.ok r ↔
      (validInput bsf items zones = true ∧
        mkResult bsf items (runEngine bsf items zones) = r) := by
  unfold allocate
  split
  · rename_i hv
    simp [hv]
  · rename_i hv
    simp [hv]

/-- C1: on every valid run, each input item's id occurs exactly once
across the result — counted over all zones' allocation lists plus the
failure list combined — so an item is never dropped, never duplicated,
never in both lists, and never split across two zones. -/
theorem c1_every_item_exactly_once (bsf : ℚ) (items : List Item)
    (zones : List Zone) (r : AllocationResult)
    (hok : allocate bsf items zones = Except.ok r)
    (hnd : (items.map Item.id).Nodup) :
    ∀ it ∈ items, resultCount r it.id = 1 := by
  intro it hit
  obtain ⟨-, hr⟩ := (allocate_ok_iff bsf items zones r).mp hok
  rw [← hr, resultCount_mkResult, stCount_runEngine]
  exact countP_id_eq_one hnd hit

/-- Witness for C1 on a concrete two-item, one-zone run. -/
theorem c1_every_item_exactly_once_witness :
    resultCount (mkResult 0 [wItem1, wItem2] (runEngine 0 [wItem1, wItem2] [wZone1]))
      wItem1.id = 1 :=
  c1_every_item_exactly_once 0 [wItem1, wItem2] [wZone1]
    (mkResult 0 [wItem1, wItem2] (runEngine 0 [wItem1, wItem2] [wZone1]))
    (by with_unfolding_all rfl)
    (by with_unfolding_all decide)
    wItem1 (by with_unfolding_all decide)

/-- C2: a zone is eligible for an item iff all five conditions hold —
height clearance with equality eligible, climate capability when
required, special-handling capability when required, strength zero or at
least the item's psf, and remaining area at least the required area —
and the engine's zone choice is always an eligible member of the zone
list. -/
theorem c2_eligibility_conditions (bsf : ℚ) (it : Item) :
    (∀ zs : ZoneState,
      isEligible bsf it zs = true ↔
        (it.height ≤ zs.zone.height ∧
          (it.requires_climate_control = true → zs.zone.climate_controlled = true) ∧
          (it.requires_special_handling = true → zs.zone.special_handling = true) ∧
          (zs.zone.strength = 0 ∨ it.psf ≤ zs.zone.strength) ∧
          requiredArea bsf it ≤ zs.remaining_area)) ∧
    (∀ (zss : List ZoneState) (i : ℕ) (zs : ZoneState),
      bestChoice bsf it zss = some (i, zs) →
        zs ∈ zss ∧ isEligible bsf it zs = true ∧
          ∃ hlt : i < zss.length, zss.get ⟨i, hlt⟩ = zs) := by
  constructor
  · intro zs
    unfold isEligible staticFit heightOK climateOK handlingOK strengthOK
    cases it.requires_climate_control <;> cases it.requires_special_handling <;>
      simp [Bool.and_eq_true, Bool.or_eq_true, decide_eq_true_eq, and_assoc]
  · intro zss i zs h
    obtain ⟨⟨hlt, hget⟩, helig, -⟩ := bestChoice_some_spec h
    exact ⟨hget ▸ List.get_mem zss i hlt, helig, hlt, hget⟩

/-- Witness for C2: the concrete choice on a one-zone list is that
eligible zone. -/
theorem c2_eligibility_conditions_witness :
    wState1 ∈ [wState1] ∧ isEligible 0 wItem1 wState1 = true ∧
      ∃ hlt : 0 < [wState1].length, [wState1].get ⟨0, hlt⟩ = wState1 :=
  (c2_eligibility_conditions 0 wItem1).2 [wState1] 0 wState1
    (by with_unfolding_all decide)

/-- C4: the engine folds over `sortItems items`, a permutation of the
input sorted with primary key height descending and secondary key
`priority_order` ascending; whenever the sorted list starts with an
item, that item is a tallest input item. -/
theorem c4_processing_order (bsf : ℚ) (items : List Item) (zones : List Zone) :
    runEngine bsf items zones = runItems bsf (initState zones) (sortItems items) ∧
    (sortItems items).Perm items ∧
    List.Sorted itemLE (sortItems items) ∧
    ∀ (x : Item) (t : List Item), sortItems items = x :: t →
      ∀ it ∈ items, it.height ≤ x.height := by
  refine ⟨rfl, sortItems_perm items, List.sorted_insertionSort _ _, ?_⟩
  intro x t hEq it hit
  have hmem : it ∈ sortItems items := (sortItems_perm items).mem_iff.mpr hit
  rw [hEq] at hmem
  rcases List.mem_cons.mp hmem with h | h
  · subst h; exact le_refl _
  · have hsorted : List.Sorted itemLE (sortItems items) :=
      List.sorted_insertionSort itemLE items
    rw [hEq] at hsorted
    rcases List.rel_of_sorted_cons hsorted it h with h1 | ⟨h1, -⟩
    · exact le_of_lt h1
    · exact le_of_eq h1.symm

/-- Witness for C4: on a concrete list the first sorted item is tallest. -/
theorem c4_processing_order_witness : wItem2.height ≤ wItem1.height :=
  (c4_processing_order 0 [wItem2, wItem1] []).2.2.2 wItem1 [wItem2]
    (by with_unfolding_all decide) wItem2 (by with_unfolding_all decide)

/-- C6: the committed area is `item.area × quantity × (1 + bsf)` — the
full quantity as one block — the allocated record carries exactly that
area, with `bsf = 0` it is the raw footprint times quantity, and on a
run with distinct ids an item's allocated records occupy at most one
zone. -/
theorem c6_required_area_block (bsf : ℚ) (it : Item) :
    requiredArea bsf it = it.area * (it.quantity : ℚ) * (1 + bsf) ∧
    requiredArea 0 it = it.area * (it.quantity : ℚ) ∧
    (mkAllocated bsf it).total_area = requiredArea bsf it ∧
    ∀ (items : List Item) (zones : List Zone),
      (items.map Item.id).Nodup → it ∈ items →
        zoneCount (runEngine bsf items zones) it.id ≤ 1 := by
  refine ⟨rfl, ?_, rfl, ?_⟩
  · unfold requiredArea
    ring
  · intro items zones hnd hit
    have h1 : stCount (runEngine bsf items zones) it.id = 1 := by
      rw [stCount_runEngine]
      exact countP_id_eq_one hnd hit
    have h2 : zoneCount (runEngine bsf items zones) it.id
        ≤ stCount (runEngine bsf items zones) it.id :=
      Nat.le_add_right _ _
    omega

/-- Witness for C6 on a concrete run. -/
theorem c6_required_area_block_witness :
    zoneCount (runEngine 0 [wItem1] [wZone1]) wItem1.id ≤ 1 :=
  (c6_required_area_block 0 wItem1).2.2.2 [wItem1] [wZone1]
    (by with_unfolding_all decide) (by with_unfolding_all decide)

/-- C7: every zone starts the run with `remaining_area = zone.area`; at
the end of the run every zone state has nonnegative remaining area with
exact accounting, so the committed area never exceeds the zone's area;
and along the run (any split of the processed item list into a prefix
and a suffix) each zone's remaining area never increases. -/
theorem c7_remaining_area_invariants (bsf : ℚ) (items : List Item)
    (zones : List Zone) (hb : 0 ≤ bsf)
    (hitems : ∀ it ∈ items, 0 ≤ it.area)
    (hzones : ∀ z ∈ zones, 0 ≤ z.area) :
    (∀ zs ∈ (initState zones).zoneStates, zs.remaining_area = zs.zone.area) ∧
    (∀ zs ∈ (runEngine bsf items zones).zoneStates,
      0 ≤ zs.remaining_area ∧
      zs.remaining_area + sumTotalArea zs.allocated_items = zs.zone.area ∧
      sumTotalArea zs.allocated_items ≤ zs.zone.area) ∧
    (∀ l1 l2 : List Item, l1 ++ l2 = sortItems items →
      ∀ (j : ℕ) (r1 r2 : ZoneState),
        (runItems bsf (initState zones) l1).zoneStates.get? j = some r1 →
        (runItems bsf (initState zones) (l1 ++ l2)).zoneStates.get? j = some r2 →
        r2.remaining_area ≤ r1.remaining_area) := by
  have hinit : ∀ zs ∈ (initState zones).zoneStates, ZoneInv zs := by
    intro zs hzs
    simp only [initState, List.mem_map] at hzs
    obtain ⟨z, hz, rfl⟩ := hzs
    exact ⟨hzones z hz, by simp [sumTotalArea]⟩
  refine ⟨?_, ?_, ?_⟩
  · intro zs hzs
    simp only [initState, List.mem_map] at hzs
    obtain ⟨z, hz, rfl⟩ := hzs
    rfl
  · intro zs hzs
    obtain ⟨h1, h2⟩ := runItems_inv bsf (sortItems items) (initState zones) hinit zs hzs
    exact ⟨h1, h2, by linarith⟩
  · intro l1 l2 hsplit j r1 r2 h1 h2
    have hreq2 : ∀ x ∈ l2, 0 ≤ requiredArea bsf x := by
      intro x hx
      have hx2 : x ∈ sortItems items := by
        rw [← hsplit]
        exact List.mem_append_right l1 hx
      exact requiredArea_nonneg hb (hitems x ((sortItems_perm items).mem_iff.mp hx2))
    rw [runItems_append] at h2
    rw [List.get?_eq_getElem?] at h1 h2
    obtain ⟨hlt1, hg1⟩ := List.getElem?_eq_some_iff.mp h1
    obtain ⟨hlt2, hg2⟩ := List.getElem?_eq_some_iff.mp h2
    have hle := runItems_get_remaining_le bsf l2 hreq2
      (runItems bsf (initState zones) l1) j hlt1 hlt2
    simp only [List.get_eq_getElem] at hle
    rw [hg1, hg2] at hle
    exact hle

/-- Witness for C7: after placing one item the sample zone's remaining
area went from 1000 down to 900. -/
theorem c7_remaining_area_invariants_witness :
    ({ zone := wZone1, remaining_area := 900,
        allocated_items := [mkAllocated 0 wItem1] } : ZoneState).remaining_area
      ≤ ({ zone := wZone1, remaining_area := 1000,
            allocated_items := [] } : ZoneState).remaining_area :=
  (c7_remaining_area_invariants 0 [wItem1] [wZone1]
      (by with_unfolding_all decide)
      (by with_unfolding_all decide)
      (by with_unfolding_all decide)).2.2
    [] [wItem1] (by with_unfolding_all decide) 0
    { zone := wZone1, remaining_area := 1000, allocated_items := [] }
    { zone := wZone1, remaining_area := 900,
      allocated_items := [mkAllocated 0 wItem1] }
    (by with_unfolding_all decide) (by with_unfolding_all decide)

/-- C8: on valid input the engine returns an ok result (infeasibility
never raises an error); in every returned result `overall_fit` is true
iff the failure list is empty and the nested flag agrees; and an empty
item list yields no failures, empty per-zone allocation lists, and
`overall_fit = true`. -/
theorem c8_overall_fit_iff_no_failures (bsf : ℚ) (items : List Item)
    (zones : List Zone) :
    (validInput bsf items zones = true →
      allocate bsf items zones
        = Except.ok (mkResult bsf items (runEngine bsf items zones))) ∧
    (∀ r, allocate bsf items zones = Except.ok r →
      ((r.overall_fit = true ↔ r.allocation_data.failures = []) ∧
        r.allocation_data.overall_fit = r.overall_fit)) ∧
    (items = [] → ∀ r, allocate bsf items zones = Except.ok r →
      r.allocation_data.failures = [] ∧ r.overall_fit = true ∧
        ∀ za ∈ r.allocation_data.zone_allocations, za.allocated_items = []) := by
  refine ⟨?_, ?_, ?_⟩
  · intro hv
    unfold allocate
    simp [hv]
  · intro r hok
    obtain ⟨-, hr⟩ := (allocate_ok_iff bsf items zones r).mp hok
    rw [← hr]
    exact ⟨by simp [mkResult, List.isEmpty_iff], rfl⟩
  · intro hempty r hok
    subst hempty
    obtain ⟨-, hr⟩ := (allocate_ok_iff bsf [] zones r).mp hok
    rw [← hr]
    have hrun : runEngine bsf [] zones = initState zones := rfl
    refine ⟨by simp [mkResult, hrun, initState], by simp [mkResult, hrun, initState], ?_⟩
    intro za hza
    simp only [mkResult, hrun, initState, List.map_map, List.mem_map] at hza
    obtain ⟨z, hz, rfl⟩ := hza
    rfl

/-- Witness for C8 on a concrete empty-items run. -/
theorem c8_overall_fit_iff_no_failures_witness :
    (mkResult 0 ([] : List Item) (runEngine 0 [] [wZone1])).allocation_data.failures = [] ∧
      (mkResult 0 ([] : List Item) (runEngine 0 [] [wZone1])).overall_fit = true ∧
      ∀ za ∈ (mkResult 0 ([] : List Item)
          (runEngine 0 [] [wZone1])).allocation_data.zone_allocations,
        za.allocated_items = [] :=
  (c8_overall_fit_iff_no_failures 0 [] [wZone1]).2.2 rfl
    (mkResult 0 [] (runEngine 0 [] [wZone1])) (by with_unfolding_all rfl)

/-- C9: the engine returns an ok result exactly when the input is
well-formed (nonempty names, nonnegative numeric fields, positive
quantity, nonnegative bsf) and an error result otherwise; the frontend
caller — not the engine — restricts bsf to the `[0, 1]` band, rejecting
unparsable values, while the engine itself accepts `bsf = 2`. -/
theorem c9_error_exactly_on_malformed (bsf : ℚ) (items : List Item)
    (zones : List Zone) :
    ((∃ r, allocate bsf items zones = Except.ok r) ↔
      validInput bsf items zones = true) ∧
    (validInput bsf items zones = true ↔
      ((∀ it ∈ items, it.name ≠ "" ∧ 0 ≤ it.weight ∧ 0 ≤ it.height ∧
          0 ≤ it.area ∧ 0 ≤ it.psf ∧ 1 ≤ it.quantity) ∧
        (∀ z ∈ zones, z.name ≠ "" ∧ 0 ≤ z.area ∧ 0 ≤ z.height ∧ 0 ≤ z.strength) ∧
        0 ≤ bsf)) ∧
    (∀ b : ℚ, frontendBsfAccepted (some b) = true ↔ (0 ≤ b ∧ b ≤ 1)) ∧
    frontendBsfAccepted none = false ∧
    validInput 2 [] [] = true := by
  refine ⟨?_, ?_, ?_, rfl, by with_unfolding_all decide⟩
  · constructor
    · rintro ⟨r, hr⟩
      exact ((allocate_ok_iff bsf items zones r).mp hr).1
    · intro hv
      exact ⟨mkResult bsf items (runEngine bsf items zones),
        (allocate_ok_iff bsf items zones _).mpr ⟨hv, rfl⟩⟩
  · unfold validInput validItem validZone
    simp [List.all_eq_true, and_assoc]
  · intro b
    unfold frontendBsfAccepted
    simp [not_lt]

/-- Witness for C9: a concrete well-formed input produces an ok result. -/
theorem c9_error_exactly_on_malformed_witness :
    ∃ r, allocate 0 [wItem1] [wZone1] = Except.ok r :=
  (c9_error_exactly_on_malformed 0 [wItem1] [wZone1]).1.mpr
    (by with_unfolding_all decide)

/-- C10: in every returned result the duplicated roll-up fields agree —
the top-level allocated/failed counters equal the summary's, the
top-level `overall_fit` equals the nested one, and the summary's
`total_items` is the sum of its allocated and failed counters. -/
theorem c10_rollup_fields_consistent (bsf : ℚ) (items : List Item)
    (zones : List Zone) (r : AllocationResult)
    (hok : allocate bsf items zones = Except.ok r) :
    r.total_allocated = r.allocation_data.summary.total_allocated ∧
    r.total_failed = r.allocation_data.summary.total_failed ∧
    r.overall_fit = r.allocation_data.overall_fit ∧
    r.allocation_data.summary.total_items
      = r.allocation_data.summary.total_allocated
        + r.allocation_data.summary.total_failed := by
  obtain ⟨-, hr⟩ := (allocate_ok_iff bsf items zones r).mp hok
  rw [← hr]
  refine ⟨rfl, rfl, rfl, ?_⟩
  show items.length
    = allocatedCount (runEngine bsf items zones)
      + (runEngine bsf items zones).failures.length
  have htot := runItems_total bsf (sortItems items) (initState zones)
  rw [allocatedCount_initState] at htot
  have hfail : (initState zones).failures.length = 0 := rfl
  have hlen := (sortItems_perm items).length_eq
  unfold runEngine
  omega

/-- Witness for C10 on a concrete run. -/
theorem c10_rollup_fields_consistent_witness :
    (mkResult 0 [wItem1] (runEngine 0 [wItem1] [wZone1])).allocation_data.summary.total_items
      = (mkResult 0 [wItem1] (runEngine 0 [wItem1] [wZone1])).allocation_data.summary.total_allocated
        + (mkResult 0 [wItem1] (runEngine 0 [wItem1] [wZone1])).allocation_data.summary.total_failed :=
  (c10_rollup_fields_consistent 0 [wItem1] [wZone1]
      (mkResult 0 [wItem1] (runEngine 0 [wItem1] [wZone1]))
      (by with_unfolding_all rfl)).2.2.2

/-- C3: the chosen zone is eligible and lexicographically optimal among
the eligible zones — no eligible zone has a strictly higher priority
score, none with equal score has strictly smaller height waste, and none
with equal score and equal waste has strictly larger remaining area; in
particular no eligible zone is strictly preferred (`PrefLt`) to the
chosen one. -/
theorem c3_best_zone_selection (bsf : ℚ) (it : Item) (zss : List ZoneState)
    (i : ℕ) (zs : ZoneState)
    (h : bestChoice bsf it zss = some (i, zs)) :
    isEligible bsf it zs = true ∧
    ∀ z ∈ zss, isEligible bsf it z = true →
      (¬ PrefLt it z zs ∧
        score it z.zone ≤ score it zs.zone ∧
        (score it z.zone = score it zs.zone →
          heightWaste it zs.zone ≤ heightWaste it z.zone) ∧
        (score it z.zone = score it zs.zone →
          heightWaste it z.zone = heightWaste it zs.zone →
            z.remaining_area ≤ zs.remaining_area)) := by
  obtain ⟨-, helig, hmax⟩ := bestChoice_some_spec h
  refine ⟨helig, ?_⟩
  intro z hz he
  have hnp := hmax z hz he
  refine ⟨hnp, ?_, ?_, ?_⟩
  · by_contra hgt
    exact hnp (Or.inl (lt_of_not_le hgt))
  · intro hsc
    by_contra hw
    exact hnp (Or.inr ⟨hsc, Or.inl (lt_of_not_le hw)⟩)
  · intro hsc hw
    by_contra hr
    exact hnp (Or.inr ⟨hsc, Or.inr ⟨hw, lt_of_not_le hr⟩⟩)

/-- Witness for C3: the concrete choice between the two sample zone
states is eligible (the minimal-height-waste zone wins there). -/
theorem c3_best_zone_selection_witness : isEligible 0 wItem1 wState1 = true :=
  (c3_best_zone_selection 0 wItem1 [wState1, wState2] 0 wState1
      (by with_unfolding_all decide)).1

/-- C5: failure reporting — `can_theoretically_fit` is true iff some
zone's static attributes fit the item; the failure reason follows the
precedence height > climate > special-handling > PSF > area, each reason
characterized over all zones with area as the remaining-capacity
fallback; a failure record is appended exactly when no zone is eligible;
and with zero zones every item fails with
`can_theoretically_fit = false`. -/
theorem c5_failure_reasons (bsf : ℚ) (it : Item) :
    (∀ zss : List ZoneState,
      ((mkFailure bsf it zss).can_theoretically_fit = true ↔
        ∃ zs ∈ zss, staticFit it zs.zone = true) ∧
      (mkFailure bsf it zss).failure_reason = failureReason it zss ∧
      (failureReason it zss = FailureReason.height ↔
        ∀ zs ∈ zss, zs.zone.height < it.height) ∧
      (failureReason it zss = FailureReason.climate ↔
        (¬ (∀ zs ∈ zss, zs.zone.height < it.height) ∧
          (it.requires_climate_control = true ∧
            ∀ zs ∈ zss, zs.zone.climate_controlled = false))) ∧
      (failureReason it zss = FailureReason.special ↔
        (¬ (∀ zs ∈ zss, zs.zone.height < it.height) ∧
          ¬ (it.requires_climate_control = true ∧
              ∀ zs ∈ zss, zs.zone.climate_controlled = false) ∧
          (it.requires_special_handling = true ∧
            ∀ zs ∈ zss, zs.zone.special_handling = false))) ∧
      (failureReason it zss = FailureReason.psf ↔
        (¬ (∀ zs ∈ zss, zs.zone.height < it.height) ∧
          ¬ (it.requires_climate_control = true ∧
              ∀ zs ∈ zss, zs.zone.climate_controlled = false) ∧
          ¬ (it.requires_special_handling = true ∧
              ∀ zs ∈ zss, zs.zone.special_handling = false) ∧
          ∀ zs ∈ zss, ¬ zs.zone.strength = 0 ∧ zs.zone.strength < it.psf)) ∧
      (failureReason it zss = FailureReason.area ↔
        (¬ (∀ zs ∈ zss, zs.zone.height < it.height) ∧
          ¬ (it.requires_climate_control = true ∧
              ∀ zs ∈ zss, zs.zone.climate_controlled = false) ∧
          ¬ (it.requires_special_handling = true ∧
              ∀ zs ∈ zss, zs.zone.special_handling = false) ∧
          ¬ (∀ zs ∈ zss, ¬ zs.zone.strength = 0 ∧ zs.zone.strength < it.psf)))) ∧
    (∀ st : EngineState, bestChoice bsf it st.zoneStates = none →
      (stepItem bsf st it).failures
        = st.failures ++ [mkFailure bsf it st.zoneStates]) ∧
    (∀ st : EngineState,
      bestChoice bsf it st.zoneStates = none ↔
        ∀ zs ∈ st.zoneStates, isEligible bsf it zs = false) ∧
    (∀ its : List Item,
      (runEngine bsf its []).failures.length = its.length ∧
      ∀ f ∈ (runEngine bsf its []).failures, f.can_theoretically_fit = false) := by
  refine ⟨?_, ?_, ?_, ?_⟩
  · intro zss
    have hA : ((zss.all fun zs => !heightOK it zs.zone) = true) ↔
        (∀ zs ∈ zss, zs.zone.height < it.height) := by
      simp [List.all_eq_true, heightOK]
    have hB : ((it.requires_climate_control &&
          zss.all fun zs => !zs.zone.climate_controlled) = true) ↔
        (it.requires_climate_control = true ∧
          ∀ zs ∈ zss, zs.zone.climate_controlled = false) := by
      simp [List.all_eq_true, Bool.and_eq_true]
    have hC : ((it.requires_special_handling &&
          zss.all fun zs => !zs.zone.special_handling) = true) ↔
        (it.requires_special_handling = true ∧
          ∀ zs ∈ zss, zs.zone.special_handling = false) := by
      simp [List.all_eq_true, Bool.and_eq_true]
    have hD : ((zss.all fun zs => !strengthOK it zs.zone) = true) ↔
        (∀ zs ∈ zss, ¬ zs.zone.strength = 0 ∧ zs.zone.strength < it.psf) := by
      simp [List.all_eq_true, strengthOK, not_or]
    refine ⟨by simp [mkFailure, canTheoreticallyFit, List.any_eq_true], rfl, ?_⟩
    unfold failureReason
    split_ifs with h1 h2 h3 h4
    · rw [hA] at h1
      exact ⟨iff_of_true rfl h1,
        iff_of_false (by simp) fun hcon => hcon.1 h1,
        iff_of_false (by simp) fun hcon => hcon.1 h1,
        iff_of_false (by simp) fun hcon => hcon.1 h1,
        iff_of_false (by simp) fun hcon => hcon.1 h1⟩
    · rw [hA] at h1
      rw [hB] at h2
      exact ⟨iff_of_false (by simp) fun ha => h1 ha,
        iff_of_true rfl ⟨h1, h2⟩,
        iff_of_false (by simp) fun hcon => hcon.2.1 h2,
        iff_of_false (by simp) fun hcon => hcon.2.1 h2,
        iff_of_false (by simp) fun hcon => hcon.2.1 h2⟩
    · rw [hA] at h1
      rw [hB] at h2
      rw [hC] at h3
      exact ⟨iff_of_false (by simp) fun ha => h1 ha,
        iff_of_false (by simp) fun hcon => h2 hcon.2,
        iff_of_true rfl ⟨h1, h2, h3⟩,
        iff_of_false (by simp) fun hcon => hcon.2.2.1 h3,
        iff_of_false (by simp) fun hcon => hcon.2.2.1 h3⟩
    · rw [hA] at h1
      rw [hB] at h2
      rw [hC] at h3
      rw [hD] at h4
      exact ⟨iff_of_false (by simp) fun ha => h1 ha,
        iff_of_false (by simp) fun hcon => h2 hcon.2,
        iff_of_false (by simp) fun hcon => h3 hcon.2.2,
        iff_of_true rfl ⟨h1, h2, h3, h4⟩,
        iff_of_false (by simp) fun hcon => hcon.2.2.2 h4⟩
    · rw [hA] at h1
      rw [hB] at h2
      rw [hC] at h3
      rw [hD] at h4
      exact ⟨iff_of_false (by simp) fun ha => h1 ha,
        iff_of_false (by simp) fun hcon => h2 hcon.2,
        iff_of_false (by simp) fun hcon => h3 hcon.2.2,
        iff_of_false (by simp) fun hcon => h4 hcon.2.2.2,
        iff_of_true rfl ⟨h1, h2, h3, h4⟩⟩
  · intro st hnone
    unfold stepItem
    rw [hnone]
  · intro st
    exact bestChoice_eq_none_iff bsf it st.zoneStates
  · intro its
    have h0 : (initState []).zoneStates = ([] : List ZoneState) := rfl
    obtain ⟨h1, h2⟩ := runItems_no_zones bsf (sortItems its) (initState []) h0
    constructor
    · show (runItems bsf (initState []) (sortItems its)).failures.length = its.length
      rw [h2]
      simp [initState, (sortItems_perm its).length_eq]
    · intro f hf
      have hf2 : f ∈ (runItems bsf (initState []) (sortItems its)).failures := hf
      rw [h2] at hf2
      simp only [initState, List.nil_append, List.mem_map] at hf2
      obtain ⟨x, hx, rfl⟩ := hf2
      rfl

/-- Witness for C5: with zero zones, a concrete one-item run records one
failure. -/
theorem c5_failure_reasons_witness :
    (runEngine 0 [wItem1] []).failures.length = [wItem1].length :=
  ((c5_failure_reasons 0 wItem1).2.2.2 [wItem1]).1

end WCP
